import Mathlib

/-!
Verification of the in-memory matchmaking queue of the backend
(`src/controllers/matchmaking.controller.js`).

The queue is a JavaScript `Map` from `userId` to `{ rating, timestamp,
gameType }`.  A JS `Map` iterates in insertion order, so we embed it as an
association list `List (String × QueueEntryData)` whose key list is kept
duplicate-free; `Map.has/delete/set/size` become `mapHas`, `mapDelete`,
`mapSet`, `mapSize` with the exact JS semantics (`set` on a present key
updates in place, otherwise appends at the end; `delete` removes the key's
entry).

The three HTTP handlers and the eviction sweep are embedded as pure
functions from the queue (plus the results of the external collaborators:
the player lookup, the game-creation call, and the recent-game lookup, all
out of scope per the spec) to a result and the successor queue.
-/

namespace Matchmaking

/-- The value stored in the matchmaking `Map`:
`{ rating, timestamp, gameType }` (controller line 6 and 105-109). -/
structure QueueEntryData where
  rating : Int
  timestamp : Int
  gameType : String
deriving Repr, DecidableEq

/-- The matchmaking queue: a JS `Map` from `userId` to its entry data,
in insertion order. -/
abbrev Queue := List (String × QueueEntryData)

/-- `Map.has` -/
def mapHas (q : Queue) (k : String) : Bool :=
  q.any (fun e => e.1 = k)

/-- `Map.delete` (the JS map holds at most one entry per key; removing
every pair with the key is the same operation). -/
def mapDelete (q : Queue) (k : String) : Queue :=
  q.filter (fun e => e.1 ≠ k)

/-- `Map.set`: update in place when the key is present, else append. -/
def mapSet (q : Queue) (k : String) (v : QueueEntryData) : Queue :=
  if mapHas q k then q.map (fun e => if e.1 = k then (k, v) else e)
  else q ++ [(k, v)]

/-- `Map.size` -/
def mapSize (q : Queue) : Nat := q.length

/-- `getRatingDifference` (controller lines 11-13):
`Math.abs(rating1 - rating2)`. -/
def getRatingDifference (rating1 rating2 : Int) : Nat :=
  (rating1 - rating2).natAbs

/-- Loop of `findBestMatch` (controller lines 22-33): scan the entries in
iteration order, skipping the excluded user and foreign game types, and
keep the entry with the strictly smallest rating difference seen so far.
The accumulator `none` plays the role of `smallestDifference = Infinity`:
the first eligible entry always wins against it. -/
def findBestMatchGo (playerRating : Int) (gameType : String)
    (excludeUserId : String) :
    Queue → Option (String × QueueEntryData) → Option (String × QueueEntryData)
  | [], best => best
  | (userId, data) :: rest, best =>
    if userId = excludeUserId ∨ data.gameType ≠ gameType then
      findBestMatchGo playerRating gameType excludeUserId rest best
    else
      match best with
      | none => findBestMatchGo playerRating gameType excludeUserId rest (some (userId, data))
      | some b =>
        if getRatingDifference playerRating data.rating <
            getRatingDifference playerRating b.2.rating then
          findBestMatchGo playerRating gameType excludeUserId rest (some (userId, data))
        else
          findBestMatchGo playerRating gameType excludeUserId rest best

/-- `findBestMatch` (controller lines 18-36). -/
def findBestMatch (q : Queue) (playerRating : Int) (gameType : String)
    (excludeUserId : String) : Option (String × QueueEntryData) :=
  findBestMatchGo playerRating gameType excludeUserId q none

/-- The game record created by `prisma.game.create` (the fields the
matchmaking handlers set: controller lines 82-90 and 215-223). -/
structure Game where
  gameType : String
  player1Id : String
  player2Id : String
  status : String
  currentTurn : String
deriving Repr, DecidableEq

/-- Outcome of `startMatchmaking` as seen by the HTTP client. -/
inductive StartResult where
  /-- 404, user lookup failed (lines 52-57). -/
  | userNotFound
  /-- `{ matched: true, game }` (lines 97-102). -/
  | matched (game : Game)
  /-- `{ matched: false, queuePosition }` (lines 111-116). -/
  | waiting (queuePosition : Nat)
  /-- 500 from the catch block (lines 118-124). -/
  | error
deriving Repr, DecidableEq

/-- `startMatchmaking` (controller lines 41-125), embedded as a pure
function.  `userLookup` is the result of the player-lookup collaborator
(`prisma.user.findUnique`): `some rating` on success, `none` when the user
is unknown.  `now` is `Date.now()`.  `createOk` tells whether the
game-creation collaborator (`prisma.game.create`) succeeds; on failure the
catch block answers 500 with the queue left as it stands. -/
def startMatchmaking (q : Queue) (userId : String) (userLookup : Option Int)
    (gameType : String) (now : Int) (createOk : Bool) : StartResult × Queue :=
  match userLookup with
  | none => (.userNotFound, q)
  | some rating =>
    -- lines 60-65: drop a stale entry of the requester first
    let q1 := if mapHas q userId then mapDelete q userId else q
    match findBestMatch q1 rating gameType userId with
    | some best =>
      -- line 73: remove the candidate before creating the game
      let q2 := mapDelete q1 best.1
      if createOk then
        (.matched { gameType := gameType, player1Id := best.1, player2Id := userId,
                    status := "IN_PROGRESS", currentTurn := best.1 }, q2)
      else
        (.error, q2)
    | none =>
      -- lines 104-116: enqueue and report the map's size
      let q2 := mapSet q1 userId ⟨rating, now, gameType⟩
      (.waiting (mapSize q2), q2)

/-- Outcome of `cancelMatchmaking`. -/
inductive CancelResult where
  | cancelled
  | notInQueue
deriving Repr, DecidableEq

/-- `cancelMatchmaking` (controller lines 130-153). -/
def cancelMatchmaking (q : Queue) (userId : String) : CancelResult × Queue :=
  if mapHas q userId then (.cancelled, mapDelete q userId)
  else (.notInQueue, q)

/-- Outcome of `checkMatchmakingStatus`. -/
inductive StatusResult where
  /-- `{ matched: true, game }` — either the recent-game fallback
  (lines 185-192) or a freshly created game (lines 230-235). -/
  | matched (game : Game)
  /-- `{ matched: false, inQueue: false }` (lines 194-199). -/
  | notInQueue
  /-- `{ matched: false, inQueue: true, queuePosition }` (lines 239-245). -/
  | waiting (queuePosition : Nat)
  /-- 500 from the catch block. -/
  | error
deriving Repr, DecidableEq

/-- `checkMatchmakingStatus` (controller lines 158-253), embedded as a pure
function.  `userLookup` is the fresh `prisma.user.findUnique` rating
resolved at poll time (a `none` makes `user.rating` throw, caught as 500);
`recentGame` is the result of the recent-game collaborator
(`prisma.game.findFirst`, lines 166-183); `createOk` as in
`startMatchmaking`.  Note both queue deletions (lines 212-213) happen
before the game creation. -/
def checkMatchmakingStatus (q : Queue) (userId : String)
    (userLookup : Option Int) (gameType : String) (recentGame : Option Game)
    (createOk : Bool) : StatusResult × Queue :=
  if mapHas q userId then
    match userLookup with
    | none => (.error, q)
    | some rating =>
      match findBestMatch q rating gameType userId with
      | some best =>
        let q1 := mapDelete (mapDelete q userId) best.1
        if createOk then
          (.matched { gameType := gameType, player1Id := userId, player2Id := best.1,
                      status := "IN_PROGRESS", currentTurn := userId }, q1)
        else
          (.error, q1)
      | none =>
        (.waiting (mapSize q), q)
  else
    match recentGame with
    | some g => (.matched g, q)
    | none => (.notInQueue, q)

/-- `TIMEOUT = 5 * 60 * 1000` (controller line 258). -/
def TIMEOUT : Int := 5 * 60 * 1000

/-- The `setInterval` period, 60000 ms (controller line 266). -/
def cleanupIntervalMs : Nat := 60000

/-- One pass of the eviction sweep (controller lines 256-266): delete every
entry with `now - data.timestamp > TIMEOUT`. -/
def cleanupQueue (q : Queue) (now : Int) : Queue :=
  q.filter (fun e => ¬ (now - e.2.timestamp > TIMEOUT))

/-- One externally observable operation on the process-wide queue, with the
collaborator results it consumed. -/
inductive Op where
  | start (userId : String) (userLookup : Option Int) (gameType : String)
      (now : Int) (createOk : Bool)
  | cancel (userId : String)
  | status (userId : String) (userLookup : Option Int) (gameType : String)
      (recentGame : Option Game) (createOk : Bool)
  | cleanup (now : Int)

/-- Effect of one operation on the queue. -/
def applyOp (q : Queue) : Op → Queue
  | .start u l g n c => (startMatchmaking q u l g n c).2
  | .cancel u => (cancelMatchmaking q u).2
  | .status u l g r c => (checkMatchmakingStatus q u l g r c).2
  | .cleanup n => cleanupQueue q n

/-- Run a sequence of operations from a given queue. -/
def runOps (q : Queue) (ops : List Op) : Queue :=
  ops.foldl applyOp q

/-- The process starts with `new Map()` (controller line 6): the queue
reachable after `ops`. -/
def reachableQueue (ops : List Op) : Queue :=
  runOps [] ops

/-- The mapping never holds two entries for one `playerId`: the key list is
duplicate-free. -/
def keysNodup (q : Queue) : Prop :=
  (q.map Prod.fst).Nodup

/-- How many entries a player has in the queue. -/
def countKey (q : Queue) (k : String) : Nat :=
  (q.filter (fun e => e.1 = k)).length

/-- Eligibility test of `findBestMatch` (controller line 23, negated):
a different user of the same game type. -/
def eligible (gameType excludeUserId : String) (e : String × QueueEntryData) : Prop :=
  e.1 ≠ excludeUserId ∧ e.2.gameType = gameType

instance (gameType excludeUserId : String) (e : String × QueueEntryData) :
    Decidable (eligible gameType excludeUserId e) := by
  unfold eligible; infer_instance

instance (q : Queue) : Decidable (keysNodup q) := by
  unfold keysNodup; infer_instance

/-! ### Map lemmas -/

theorem mapHas_eq_false {q : Queue} {k : String} :
    mapHas q k = false ↔ ∀ e ∈ q, e.1 ≠ k := by
  simp [mapHas]

theorem mem_mapDelete {q : Queue} {k : String} {e : String × QueueEntryData} :
    e ∈ mapDelete q k ↔ e ∈ q ∧ e.1 ≠ k := by
  simp [mapDelete]

theorem mapDelete_sublist (q : Queue) (k : String) :
    List.Sublist (mapDelete q k) q :=
  List.filter_sublist q

theorem keysNodup_mapDelete {q : Queue} {k : String} (h : keysNodup q) :
    keysNodup (mapDelete q k) :=
  List.Nodup.sublist ((mapDelete_sublist q k).map Prod.fst) h

theorem mapHas_mapDelete_self (q : Queue) (k : String) :
    mapHas (mapDelete q k) k = false := by
  rw [mapHas_eq_false]
  intro e he
  exact (mem_mapDelete.mp he).2

theorem mapHas_mapDelete_false {q : Queue} {k u : String}
    (h : mapHas q u = false) : mapHas (mapDelete q k) u = false := by
  rw [mapHas_eq_false] at h ⊢
  intro e he
  exact h e (mem_mapDelete.mp he).1

theorem mapDelete_eq_self {q : Queue} {k : String} (h : mapHas q k = false) :
    mapDelete q k = q := by
  rw [mapHas_eq_false] at h
  exact List.filter_eq_self.mpr (fun e he => by simpa using h e he)

theorem mapSet_of_not_has {q : Queue} {k : String} (v : QueueEntryData)
    (h : mapHas q k = false) : mapSet q k v = q ++ [(k, v)] := by
  simp [mapSet, h]

theorem keysNodup_mapSet {q : Queue} {k : String} {v : QueueEntryData}
    (h : keysNodup q) : keysNodup (mapSet q k v) := by
  unfold mapSet
  split
  · have : (q.map (fun e => if e.1 = k then (k, v) else e)).map Prod.fst =
        q.map Prod.fst := by
      rw [List.map_map]
      refine List.map_congr_left (fun e _ => ?_)
      by_cases he : e.1 = k
      · simp [he]
      · simp [he]
    unfold keysNodup
    rw [this]
    exact h
  · rename_i hno
    rw [Bool.not_eq_true] at hno
    rw [mapHas_eq_false] at hno
    unfold keysNodup
    rw [List.map_append, List.nodup_append]
    refine ⟨h, List.nodup_singleton _, ?_⟩
    intro a ha hb
    simp only [List.map_cons, List.map_nil, List.mem_singleton] at hb
    obtain ⟨e, he, rfl⟩ := List.mem_map.mp ha
    exact hno e he hb

theorem countKey_mapDelete_self (q : Queue) (k : String) :
    countKey (mapDelete q k) k = 0 := by
  unfold countKey mapDelete
  rw [List.filter_filter, List.length_eq_zero, List.filter_eq_nil_iff]
  intro e _
  by_cases h : e.1 = k <;> simp [h]

theorem keysNodup_entry_unique {q : Queue} (h : keysNodup q) {x : String}
    {a b : QueueEntryData} (ha : (x, a) ∈ q) (hb : (x, b) ∈ q) : a = b := by
  induction q with
  | nil => cases ha
  | cons e rest ih =>
    have hk : (e.1 ∉ rest.map Prod.fst) ∧ keysNodup rest := by
      unfold keysNodup at h
      simpa [List.nodup_cons] using h
    rcases List.mem_cons.mp ha with ha1 | ha1 <;>
      rcases List.mem_cons.mp hb with hb1 | hb1
    · have h2 : ((x, a) : String × QueueEntryData) = (x, b) := ha1.trans hb1.symm
      exact congrArg Prod.snd h2
    · exfalso
      apply hk.1
      rw [← ha1]
      exact List.mem_map.mpr ⟨(x, b), hb1, rfl⟩
    · exfalso
      apply hk.1
      rw [← hb1]
      exact List.mem_map.mpr ⟨(x, a), ha1, rfl⟩
    · exact ih hk.2 ha1 hb1

/-! ### Characterization of the best-match scan

The loop keeps the first entry attaining the smallest rating difference:
the result is an eligible entry whose difference is strictly below every
eligible entry before it and at most every eligible entry after it. -/

theorem findBestMatchGo_some (pr : Int) (gt ex : String) :
    ∀ (l : Queue) (b : String × QueueEntryData),
      (findBestMatchGo pr gt ex l (some b) = some b ∧
        ∀ e ∈ l, eligible gt ex e →
          getRatingDifference pr b.2.rating ≤ getRatingDifference pr e.2.rating) ∨
      (∃ l1 c l2, l = l1 ++ c :: l2 ∧
        findBestMatchGo pr gt ex l (some b) = some c ∧ eligible gt ex c ∧
        getRatingDifference pr c.2.rating < getRatingDifference pr b.2.rating ∧
        (∀ e ∈ l1, eligible gt ex e →
          getRatingDifference pr c.2.rating < getRatingDifference pr e.2.rating) ∧
        (∀ e ∈ l2, eligible gt ex e →
          getRatingDifference pr c.2.rating ≤ getRatingDifference pr e.2.rating)) := by
  intro l
  induction l with
  | nil =>
    intro b
    left
    exact ⟨rfl, by simp⟩
  | cons hd rest ih =>
    intro b
    obtain ⟨u, d⟩ := hd
    by_cases hskip : u = ex ∨ d.gameType ≠ gt
    · have hne : ¬ eligible gt ex (u, d) := by
        rcases hskip with h | h <;> simp [eligible, h]
      have hstep : findBestMatchGo pr gt ex ((u, d) :: rest) (some b) =
          findBestMatchGo pr gt ex rest (some b) := by
        simp [findBestMatchGo, hskip]
      rcases ih b with ⟨h1, h2⟩ | ⟨l1, c, l2, hsplit, hres, hel, hlt, hl1, hl2⟩
      · left
        refine ⟨hstep.trans h1, ?_⟩
        intro e he hee
        rcases List.mem_cons.mp he with rfl | he2
        · exact absurd hee hne
        · exact h2 e he2 hee
      · right
        refine ⟨(u, d) :: l1, c, l2, by rw [hsplit]; rfl, hstep.trans hres, hel, hlt, ?_, hl2⟩
        intro e he hee
        rcases List.mem_cons.mp he with rfl | he2
        · exact absurd hee hne
        · exact hl1 e he2 hee
    · have hel0 : eligible gt ex (u, d) := by
        push_neg at hskip
        exact ⟨hskip.1, hskip.2⟩
      by_cases hlt0 : getRatingDifference pr d.rating < getRatingDifference pr b.2.rating
      · have hstep : findBestMatchGo pr gt ex ((u, d) :: rest) (some b) =
            findBestMatchGo pr gt ex rest (some (u, d)) := by
          simp [findBestMatchGo, hskip, hlt0]
        rcases ih (u, d) with ⟨h1, h2⟩ | ⟨l1, c, l2, hsplit, hres, hel, hlt, hl1, hl2⟩
        · right
          exact ⟨[], (u, d), rest, rfl, hstep.trans h1, hel0, hlt0, by simp, h2⟩
        · right
          refine ⟨(u, d) :: l1, c, l2, by rw [hsplit]; rfl, hstep.trans hres, hel,
            lt_trans hlt hlt0, ?_, hl2⟩
          intro e he hee
          rcases List.mem_cons.mp he with rfl | he2
          · exact hlt
          · exact hl1 e he2 hee
      · have hstep : findBestMatchGo pr gt ex ((u, d) :: rest) (some b) =
            findBestMatchGo pr gt ex rest (some b) := by
          simp [findBestMatchGo, hskip, hlt0]
        have hge : getRatingDifference pr b.2.rating ≤ getRatingDifference pr d.rating :=
          Nat.le_of_not_lt hlt0
        rcases ih b with ⟨h1, h2⟩ | ⟨l1, c, l2, hsplit, hres, hel, hlt, hl1, hl2⟩
        · left
          refine ⟨hstep.trans h1, ?_⟩
          intro e he hee
          rcases List.mem_cons.mp he with rfl | he2
          · exact hge
          · exact h2 e he2 hee
        · right
          refine ⟨(u, d) :: l1, c, l2, by rw [hsplit]; rfl, hstep.trans hres, hel, hlt, ?_, hl2⟩
          intro e he hee
          rcases List.mem_cons.mp he with rfl | he2
          · exact lt_of_lt_of_le hlt hge
          · exact hl1 e he2 hee

theorem findBestMatch_characterization (q : Queue) (pr : Int) (gt ex : String) :
    (findBestMatch q pr gt ex = none ∧ ∀ e ∈ q, ¬ eligible gt ex e) ∨
    (∃ l1 c l2, q = l1 ++ c :: l2 ∧ findBestMatch q pr gt ex = some c ∧
      eligible gt ex c ∧
      (∀ e ∈ l1, eligible gt ex e →
        getRatingDifference pr c.2.rating < getRatingDifference pr e.2.rating) ∧
      (∀ e ∈ l2, eligible gt ex e →
        getRatingDifference pr c.2.rating ≤ getRatingDifference pr e.2.rating)) := by
  unfold findBestMatch
  induction q with
  | nil =>
    left
    exact ⟨rfl, by simp⟩
  | cons hd rest ih =>
    obtain ⟨u, d⟩ := hd
    by_cases hskip : u = ex ∨ d.gameType ≠ gt
    · have hne : ¬ eligible gt ex (u, d) := by
        rcases hskip with h | h <;> simp [eligible, h]
      have hstep : findBestMatchGo pr gt ex ((u, d) :: rest) none =
          findBestMatchGo pr gt ex rest none := by
        simp [findBestMatchGo, hskip]
      rcases ih with ⟨h1, h2⟩ | ⟨l1, c, l2, hsplit, hres, hel, hl1, hl2⟩
      · left
        refine ⟨hstep.trans h1, ?_⟩
        intro e he hee
        rcases List.mem_cons.mp he with rfl | he2
        · exact hne hee
        · exact h2 e he2 hee
      · right
        refine ⟨(u, d) :: l1, c, l2, by rw [hsplit]; rfl, hstep.trans hres, hel, ?_, hl2⟩
        intro e he hee
        rcases List.mem_cons.mp he with rfl | he2
        · exact absurd hee hne
        · exact hl1 e he2 hee
    · have hel0 : eligible gt ex (u, d) := by
        push_neg at hskip
        exact ⟨hskip.1, hskip.2⟩
      have hstep : findBestMatchGo pr gt ex ((u, d) :: rest) none =
          findBestMatchGo pr gt ex rest (some (u, d)) := by
        simp [findBestMatchGo, hskip]
      rcases findBestMatchGo_some pr gt ex rest (u, d) with
        ⟨h1, h2⟩ | ⟨l1, c, l2, hsplit, hres, hel, hlt, hl1, hl2⟩
      · right
        exact ⟨[], (u, d), rest, rfl, hstep.trans h1, hel0, by simp, h2⟩
      · right
        refine ⟨(u, d) :: l1, c, l2, by rw [hsplit]; rfl, hstep.trans hres, hel, ?_, hl2⟩
        intro e he hee
        rcases List.mem_cons.mp he with rfl | he2
        · exact hlt
        · exact hl1 e he2 hee

theorem findBestMatch_some_eligible {q : Queue} {pr : Int} {gt ex : String}
    {c : String × QueueEntryData} (h : findBestMatch q pr gt ex = some c) :
    c ∈ q ∧ c.1 ≠ ex ∧ c.2.gameType = gt := by
  rcases findBestMatch_characterization q pr gt ex with
    ⟨h1, _⟩ | ⟨l1, c', l2, hsplit, hres, hel, _, _⟩
  · rw [h1] at h
    cases h
  · rw [hres] at h
    injection h with h
    subst h
    exact ⟨hsplit ▸ List.mem_append.mpr (Or.inr (List.mem_cons_self _ _)), hel.1, hel.2⟩

theorem findBestMatch_some_min {q : Queue} {pr : Int} {gt ex : String}
    {c : String × QueueEntryData} (h : findBestMatch q pr gt ex = some c) :
    ∀ e ∈ q, eligible gt ex e →
      getRatingDifference pr c.2.rating ≤ getRatingDifference pr e.2.rating := by
  rcases findBestMatch_characterization q pr gt ex with
    ⟨h1, _⟩ | ⟨l1, c', l2, hsplit, hres, hel, hl1, hl2⟩
  · rw [h1] at h
    cases h
  · rw [hres] at h
    injection h with h
    subst h
    intro e he hee
    rw [hsplit] at he
    rcases List.mem_append.mp he with h3 | h3
    · exact le_of_lt (hl1 e h3 hee)
    · rcases List.mem_cons.mp h3 with rfl | h4
      · exact le_refl _
      · exact hl2 e h4 hee

theorem findBestMatch_eq_none {q : Queue} {pr : Int} {gt ex : String}
    (h : ∀ e ∈ q, ¬ eligible gt ex e) : findBestMatch q pr gt ex = none := by
  rcases findBestMatch_characterization q pr gt ex with
    ⟨h1, _⟩ | ⟨l1, c, l2, hsplit, hres, hel, _, _⟩
  · exact h1
  · exact absurd hel
      (h c (hsplit ▸ List.mem_append.mpr (Or.inr (List.mem_cons_self _ _))))

/-! ### The key-uniqueness invariant is preserved by every operation -/

theorem countKey_append (l1 l2 : Queue) (k : String) :
    countKey (l1 ++ l2) k = countKey l1 k + countKey l2 k := by
  simp [countKey, List.filter_append]

theorem keysNodup_applyOp (q : Queue) (op : Op) (h : keysNodup q) :
    keysNodup (applyOp q op) := by
  cases op with
  | start u l g n c =>
    cases l with
    | none => simpa [applyOp, startMatchmaking] using h
    | some rating =>
      have h1 : keysNodup (if mapHas q u then mapDelete q u else q) := by
        split
        · exact keysNodup_mapDelete h
        · exact h
      simp only [applyOp, startMatchmaking]
      cases hfb : findBestMatch (if mapHas q u then mapDelete q u else q) rating g u with
      | some best =>
        simp only [hfb]
        cases c
        · simpa using keysNodup_mapDelete h1
        · simpa using keysNodup_mapDelete h1
      | none =>
        simp only [hfb]
        exact keysNodup_mapSet h1
  | cancel u =>
    simp only [applyOp, cancelMatchmaking]
    split
    · exact keysNodup_mapDelete h
    · exact h
  | status u l g r c =>
    simp only [applyOp, checkMatchmakingStatus]
    split
    · cases l with
      | none => exact h
      | some rating =>
        cases hfb : findBestMatch q rating g u with
        | some best =>
          simp only [hfb]
          cases c
          · simpa using keysNodup_mapDelete (keysNodup_mapDelete h)
          · simpa using keysNodup_mapDelete (keysNodup_mapDelete h)
        | none =>
          simp only [hfb]
          exact h
    · cases r with
      | none => exact h
      | some g0 => exact h
  | cleanup n =>
    exact List.Nodup.sublist ((List.filter_sublist q).map Prod.fst) h

theorem keysNodup_runOps (ops : List Op) :
    ∀ q : Queue, keysNodup q → keysNodup (runOps q ops) := by
  induction ops with
  | nil => intro q h; exact h
  | cons op rest ih => intro q h; exact ih _ (keysNodup_applyOp q op h)

/-! ### The claims -/

/-- C1: Over every sequence of enqueue-or-match, cancel, status and
eviction operations the queue mapping never holds two entries for the same
`playerId`; and an `enqueueOrMatch` call for a player already present that
ends up waiting replaces the old entry by a single fresh one carrying the
new timestamp (no duplicate membership). -/
theorem c1_no_duplicate_entries :
    (∀ ops : List Op, keysNodup (reachableQueue ops)) ∧
    (∀ (q : Queue) (u : String) (r : Int) (g : String) (n : Int) (ok : Bool)
        (k : Nat) (q' : Queue),
      mapHas q u = true →
      startMatchmaking q u (some r) g n ok = (.waiting k, q') →
      countKey q' u = 1 ∧ (u, ⟨r, n, g⟩) ∈ q') := by
  constructor
  · intro ops
    exact keysNodup_runOps ops [] List.nodup_nil
  · intro q u r g n ok k q' hhas hstart
    simp only [startMatchmaking, hhas, if_true] at hstart
    cases hfb : findBestMatch (mapDelete q u) r g u with
    | some best =>
      rw [hfb] at hstart
      cases ok <;> simp at hstart
    | none =>
      rw [hfb] at hstart
      injection hstart with h1 h2
      subst h2
      rw [mapSet_of_not_has _ (mapHas_mapDelete_self q u)]
      constructor
      · rw [countKey_append, countKey_mapDelete_self]
        simp [countKey]
      · exact List.mem_append.mpr (Or.inr (List.mem_singleton.mpr rfl))

/-- Witness for C1 at a concrete double-enqueue run and a concrete
re-enqueue that replaces the old entry. -/
theorem c1_no_duplicate_entries_witness :
    keysNodup (reachableQueue [.start "a" (some 1000) "ayo" 0 true,
      .start "a" (some 1000) "ayo" 5 true]) ∧
    (countKey [("a", (⟨1200, 7, "ayo"⟩ : QueueEntryData))] "a" = 1 ∧
      ("a", (⟨1200, 7, "ayo"⟩ : QueueEntryData)) ∈
        ([("a", ⟨1200, 7, "ayo"⟩)] : Queue)) :=
  ⟨c1_no_duplicate_entries.1 [.start "a" (some 1000) "ayo" 0 true,
      .start "a" (some 1000) "ayo" 5 true],
   c1_no_duplicate_entries.2 [("a", ⟨1000, 0, "ayo"⟩)] "a" 1200 "ayo" 7 true 1
     [("a", ⟨1200, 7, "ayo"⟩)] (by decide) (by decide)⟩

/-- C2: the candidate search considers exactly the entries with the
requester's `gameType` and a different `playerId`; when it returns a
candidate, that candidate is eligible, minimizes the absolute rating
difference among all eligible entries, and every eligible entry placed
before it in iteration order has a strictly larger difference (so ties go
to the first encountered); when it returns none, no entry is eligible. -/
theorem c2_best_match_selection (q : Queue) (pr : Int) (gt ex : String) :
    (findBestMatch q pr gt ex = none → ∀ e ∈ q, ¬ eligible gt ex e) ∧
    (∀ c, findBestMatch q pr gt ex = some c →
      eligible gt ex c ∧
      (∀ e ∈ q, eligible gt ex e →
        getRatingDifference pr c.2.rating ≤ getRatingDifference pr e.2.rating) ∧
      ∃ l1 l2, q = l1 ++ c :: l2 ∧
        (∀ e ∈ l1, eligible gt ex e →
          getRatingDifference pr c.2.rating < getRatingDifference pr e.2.rating)) := by
  constructor
  · intro hnone e he hee
    rcases findBestMatch_characterization q pr gt ex with
      ⟨_, h2⟩ | ⟨l1, c, l2, _, hres, _, _, _⟩
    · exact h2 e he hee
    · rw [hres] at hnone
      cases hnone
  · intro c hc
    refine ⟨⟨(findBestMatch_some_eligible hc).2.1, (findBestMatch_some_eligible hc).2.2⟩,
      findBestMatch_some_min hc, ?_⟩
    rcases findBestMatch_characterization q pr gt ex with
      ⟨h1, _⟩ | ⟨l1, c', l2, hsplit, hres, _, hl1, _⟩
    · rw [h1] at hc
      cases hc
    · rw [hres] at hc
      injection hc with hc
      subst hc
      exact ⟨l1, l2, hsplit, hl1⟩

/-- Witness for C2 on a queue where the minimizer sits behind a worse
same-type entry and a foreign-type entry. -/
theorem c2_best_match_selection_witness :
    eligible "X" "z" ("b", (⟨1050, 0, "X"⟩ : QueueEntryData)) ∧
    (∀ e ∈ ([("a", ⟨1000, 0, "X"⟩), ("b", ⟨1050, 0, "X"⟩),
        ("c", ⟨1040, 0, "Y"⟩)] : Queue), eligible "X" "z" e →
      getRatingDifference 1040 1050 ≤ getRatingDifference 1040 e.2.rating) ∧
    ∃ l1 l2, ([("a", ⟨1000, 0, "X"⟩), ("b", ⟨1050, 0, "X"⟩),
        ("c", ⟨1040, 0, "Y"⟩)] : Queue) = l1 ++ ("b", ⟨1050, 0, "X"⟩) :: l2 ∧
      (∀ e ∈ l1, eligible "X" "z" e →
        getRatingDifference 1040 1050 < getRatingDifference 1040 e.2.rating) :=
  (c2_best_match_selection [("a", ⟨1000, 0, "X"⟩), ("b", ⟨1050, 0, "X"⟩),
      ("c", ⟨1040, 0, "Y"⟩)] 1040 "X" "z").2 ("b", ⟨1050, 0, "X"⟩) (by decide)

/-- C3: from an empty queue, after A (rating 1000) enqueues for a game
type, B's (rating 1050) enqueue for the same game type returns a matched
result whose game has A as `player1` and B as `player2`, and the queue is
empty afterward (A removed, B never inserted). -/
theorem c3_second_enqueue_matches (A B g : String) (t1 t2 : Int) (h : A ≠ B) :
    startMatchmaking [] A (some 1000) g t1 true =
      (.waiting 1, [(A, ⟨1000, t1, g⟩)]) ∧
    ∃ gm : Game,
      startMatchmaking [(A, ⟨1000, t1, g⟩)] B (some 1050) g t2 true =
        (.matched gm, ([] : Queue)) ∧
      gm.player1Id = A ∧ gm.player2Id = B ∧ gm.gameType = g := by
  constructor
  · rfl
  · refine ⟨⟨g, A, B, "IN_PROGRESS", A⟩, ?_, rfl, rfl, rfl⟩
    simp [startMatchmaking, mapHas, findBestMatch, findBestMatchGo,
      mapDelete, h]

/-- Witness for C3 at concrete identities. -/
theorem c3_second_enqueue_matches_witness :
    startMatchmaking [] "alice" (some 1000) "chess" 3 true =
      (.waiting 1, [("alice", ⟨1000, 3, "chess"⟩)]) ∧
    ∃ gm : Game,
      startMatchmaking [("alice", ⟨1000, 3, "chess"⟩)] "bob" (some 1050)
          "chess" 9 true = (.matched gm, ([] : Queue)) ∧
      gm.player1Id = "alice" ∧ gm.player2Id = "bob" ∧ gm.gameType = "chess" :=
  c3_second_enqueue_matches "alice" "bob" "chess" 3 9 (by decide)

/-- C4: no matched result ever pairs a player with themselves — neither a
match made by `startMatchmaking`, nor one made by `checkMatchmakingStatus`
(granting that the recent-game collaborator only reports games between
distinct players, as only such games are ever created); and a player whose
entry is the only one of its game type polls to a waiting answer, not a
self-match. -/
theorem c4_never_self_match :
    (∀ (q : Queue) (u : String) (l : Option Int) (g : String) (n : Int)
        (ok : Bool) (gm : Game) (q' : Queue),
      startMatchmaking q u l g n ok = (.matched gm, q') →
      gm.player1Id ≠ gm.player2Id) ∧
    (∀ (q : Queue) (u : String) (l : Option Int) (g : String)
        (rg : Option Game) (ok : Bool) (gm : Game) (q' : Queue),
      (∀ g0, rg = some g0 → g0.player1Id ≠ g0.player2Id) →
      checkMatchmakingStatus q u l g rg ok = (.matched gm, q') →
      gm.player1Id ≠ gm.player2Id) ∧
    (∀ (q : Queue) (u : String) (r : Int) (g : String) (ok : Bool),
      mapHas q u = true →
      (∀ e ∈ q, e.2.gameType = g → e.1 = u) →
      checkMatchmakingStatus q u (some r) g none ok =
        (.waiting (mapSize q), q)) := by
  refine ⟨?_, ?_, ?_⟩
  · intro q u l g n ok gm q' hstart
    cases l with
    | none => simp [startMatchmaking] at hstart
    | some rating =>
      simp only [startMatchmaking] at hstart
      cases hfb : findBestMatch (if mapHas q u then mapDelete q u else q)
          rating g u with
      | none =>
        simp [hfb] at hstart
      | some best =>
        simp only [hfb] at hstart
        split at hstart
        · injection hstart with h1 h2
          injection h1 with h1
          rw [← h1]
          exact (findBestMatch_some_eligible hfb).2.1
        · simp at hstart
  · intro q u l g rg ok gm q' hrg hst
    by_cases hh : mapHas q u = true
    · cases l with
      | none => simp [checkMatchmakingStatus, hh] at hst
      | some rating =>
        simp only [checkMatchmakingStatus, hh, eq_self_iff_true,
          if_true] at hst
        cases hfb : findBestMatch q rating g u with
        | none => simp [hfb] at hst
        | some best =>
          simp only [hfb] at hst
          split at hst
          · injection hst with h1 h2
            injection h1 with h1
            rw [← h1]
            exact fun hcontra =>
              (findBestMatch_some_eligible hfb).2.1 hcontra.symm
          · simp at hst
    · cases rg with
      | none => simp [checkMatchmakingStatus, hh] at hst
      | some g0 =>
        simp only [checkMatchmakingStatus, hh, if_false, Bool.false_eq_true,
          eq_self_iff_true] at hst
        injection hst with h1 h2
        injection h1 with h1
        rw [← h1]
        exact hrg g0 rfl
  · intro q u r g ok hh hall
    have hfbnone : findBestMatch q r g u = none := by
      apply findBestMatch_eq_none
      intro e he hee
      exact hee.1 (hall e he hee.2)
    simp only [checkMatchmakingStatus, hh, if_true]
    rw [hfbnone]

/-- Witness for C4 at concrete queues: a fresh match, a poll-time match,
and a lone-entry poll. -/
theorem c4_never_self_match_witness :
    (("A" : String) ≠ "B") ∧ (("C" : String) ≠ "D") ∧
    checkMatchmakingStatus [("solo", ⟨1000, 0, "ayo"⟩)] "solo" (some 1000)
        "ayo" none true =
      (.waiting 1, [("solo", ⟨1000, 0, "ayo"⟩)]) :=
  ⟨c4_never_self_match.1 [("A", ⟨1000, 0, "g"⟩)] "B" (some 1050) "g" 1 true
      ⟨"g", "A", "B", "IN_PROGRESS", "A"⟩ [] (by decide),
   c4_never_self_match.2.1 [("C", ⟨1001, 0, "g"⟩), ("D", ⟨1000, 0, "g"⟩)]
      "C" (some 1001) "g" none true ⟨"g", "C", "D", "IN_PROGRESS", "C"⟩ []
      (by simp) (by decide),
   c4_never_self_match.2.2 [("solo", ⟨1000, 0, "ayo"⟩)] "solo" 1000 "ayo"
      true (by decide) (by decide)⟩

/-- C5: a matched result never pairs the requester with a waiting entry of
a different `gameType`: in a duplicate-free queue, any entry whose game
type differs from the requested one is never the selected opponent, in
`startMatchmaking` and in the re-match of `checkMatchmakingStatus` alike. -/
theorem c5_same_gametype_only :
    (∀ (q : Queue) (u : String) (rat : Int) (g : String) (n : Int) (ok : Bool)
        (gm : Game) (q' : Queue) (x : String) (d : QueueEntryData),
      keysNodup q →
      startMatchmaking q u (some rat) g n ok = (.matched gm, q') →
      (x, d) ∈ q → d.gameType ≠ g → gm.player1Id ≠ x) ∧
    (∀ (q : Queue) (u : String) (rat : Int) (g : String) (rg : Option Game)
        (ok : Bool) (gm : Game) (q' : Queue) (x : String) (d : QueueEntryData),
      keysNodup q → mapHas q u = true →
      checkMatchmakingStatus q u (some rat) g rg ok = (.matched gm, q') →
      (x, d) ∈ q → d.gameType ≠ g → gm.player2Id ≠ x) := by
  constructor
  · intro q u rat g n ok gm q' x d hnd hstart hmem hgt
    simp only [startMatchmaking] at hstart
    cases hfb : findBestMatch (if mapHas q u then mapDelete q u else q)
        rat g u with
    | none => simp [hfb] at hstart
    | some best =>
      obtain ⟨bu, bd⟩ := best
      have hbest := findBestMatch_some_eligible hfb
      have hbestq : (bu, bd) ∈ q := by
        have h1 := hbest.1
        split at h1
        · exact (mem_mapDelete.mp h1).1
        · exact h1
      simp only [hfb] at hstart
      split at hstart
      · injection hstart with h1 h2
        injection h1 with h1
        rw [← h1]
        intro hx
        have hxq : (x, bd) ∈ q := by
          rw [← hx]
          exact hbestq
        have : d = bd := keysNodup_entry_unique hnd hmem hxq
        rw [this] at hgt
        exact hgt hbest.2.2
      · simp at hstart
  · intro q u rat g rg ok gm q' x d hnd hh hst hmem hgt
    simp only [checkMatchmakingStatus, hh, eq_self_iff_true, if_true] at hst
    cases hfb : findBestMatch q rat g u with
    | none => simp [hfb] at hst
    | some best =>
      obtain ⟨bu, bd⟩ := best
      have hbest := findBestMatch_some_eligible hfb
      simp only [hfb] at hst
      split at hst
      · injection hst with h1 h2
        injection h1 with h1
        rw [← h1]
        intro hx
        have hxq : (x, bd) ∈ q := by
          rw [← hx]
          exact hbest.1
        have : d = bd := keysNodup_entry_unique hnd hmem hxq
        rw [this] at hgt
        exact hgt hbest.2.2
      · simp at hst

/-- Witness for C5: a closer-rated entry of another game type is passed
over in favor of the same-type entry, for both operations. -/
theorem c5_same_gametype_only_witness :
    (("a" : String) ≠ "y") ∧ (("a" : String) ≠ "z") :=
  ⟨c5_same_gametype_only.1 [("y", ⟨1000, 0, "other"⟩), ("a", ⟨1500, 0, "g"⟩)]
      "b" 1001 "g" 3 true ⟨"g", "a", "b", "IN_PROGRESS", "a"⟩
      [("y", ⟨1000, 0, "other"⟩)] "y" ⟨1000, 0, "other"⟩ (by decide)
      (by decide) (by decide) (by decide),
   c5_same_gametype_only.2 [("b", ⟨1001, 0, "g"⟩), ("z", ⟨1000, 0, "other"⟩),
      ("a", ⟨1500, 0, "g"⟩)] "b" 1001 "g" none true
      ⟨"g", "b", "a", "IN_PROGRESS", "b"⟩ [("z", ⟨1000, 0, "other"⟩)] "z"
      ⟨1000, 0, "other"⟩ (by decide) (by decide) (by decide) (by decide)
      (by decide)⟩

/-- C6 counterexample: an entry whose age is exactly 5 minutes
(`now - enqueuedAt = 300000` ms, hence "at least 5 minutes") survives the
eviction pass, because the sweep only removes entries strictly older. -/
theorem c6_eviction_counterexample :
    (300000 : Int) - 0 ≥ 5 * 60 * 1000 ∧
    ("a", (⟨1000, 0, "chess"⟩ : QueueEntryData)) ∈
      cleanupQueue [("a", ⟨1000, 0, "chess"⟩)] 300000 := by decide

/-- C6 (amended): after one eviction pass at time `now`, an entry is
present iff it was present before and its age is at most 5 minutes —
entries strictly older than 300000 ms are removed, the rest survive
unchanged; the sweep is scheduled with a fixed 60000 ms period. -/
theorem c6_eviction_pass (q : Queue) (now : Int) :
    (∀ e : String × QueueEntryData,
      e ∈ cleanupQueue q now ↔ e ∈ q ∧ now - e.2.timestamp ≤ TIMEOUT) ∧
    TIMEOUT = 5 * 60 * 1000 ∧ cleanupIntervalMs = 60000 := by
  refine ⟨?_, rfl, rfl⟩
  intro e
  simp [cleanupQueue, List.mem_filter, not_lt]

/-- C7 counterexample: with one waiting `ttt` entry, a `chess` requester
finding no candidate is answered queue size 2 — the whole map's size —
although its `chess` partition then holds a single entry. -/
theorem c7_queue_size_counterexample :
    (startMatchmaking [("a", ⟨1000, 0, "ttt"⟩)] "b" (some 1000) "chess" 5
        true).1 = .waiting 2 ∧
    ((startMatchmaking [("a", ⟨1000, 0, "ttt"⟩)] "b" (some 1000) "chess" 5
        true).2.filter (fun e => e.2.gameType = "chess")).length = 1 ∧
    (2 : Nat) ≠ 1 := by decide

/-- C7 (amended): when no candidate is found, the requester is appended
with the current timestamp and the waiting result reports the size of the
whole queue map after insertion (all game types), not the partition
size. -/
theorem c7_waiting_reports_whole_map_size
    (q : Queue) (u : String) (r : Int) (g : String) (n : Int) (ok : Bool)
    (hfb : findBestMatch (if mapHas q u then mapDelete q u else q) r g u =
      none) :
    ∃ q', startMatchmaking q u (some r) g n ok =
        (.waiting (mapSize q'), q') ∧
      q' = (if mapHas q u then mapDelete q u else q) ++ [(u, ⟨r, n, g⟩)] ∧
      (u, ⟨r, n, g⟩) ∈ q' := by
  have hq1 : mapHas (if mapHas q u then mapDelete q u else q) u = false := by
    split
    · exact mapHas_mapDelete_self q u
    · rename_i hno
      simpa using hno
  refine ⟨mapSet (if mapHas q u then mapDelete q u else q) u ⟨r, n, g⟩,
    ?_, mapSet_of_not_has _ hq1, ?_⟩
  · simp only [startMatchmaking, hfb]
  · rw [mapSet_of_not_has _ hq1]
    exact List.mem_append.mpr (Or.inr (List.mem_singleton.mpr rfl))

/-- Witness for C7 (amended) at the counterexample's input. -/
theorem c7_waiting_reports_whole_map_size_witness :
    ∃ q', startMatchmaking [("a", ⟨1000, 0, "ttt"⟩)] "b" (some 1000) "chess"
        5 true = (.waiting (mapSize q'), q') ∧
      q' = (if mapHas [("a", ⟨1000, 0, "ttt"⟩)] "b"
          then mapDelete [("a", ⟨1000, 0, "ttt"⟩)] "b"
          else [("a", ⟨1000, 0, "ttt"⟩)]) ++ [("b", ⟨1000, 5, "chess"⟩)] ∧
      ("b", (⟨1000, 5, "chess"⟩ : QueueEntryData)) ∈ q' :=
  c7_waiting_reports_whole_map_size [("a", ⟨1000, 0, "ttt"⟩)] "b" 1000
    "chess" 5 true (by decide)

/-- C8: the first slot and first turn are assigned asymmetrically: a match
made by `startMatchmaking` makes the previously waiting candidate
`player1` and gives it the first turn, while a match made by
`checkMatchmakingStatus` makes the polling requester `player1` with the
first turn. -/
theorem c8_first_turn_assignment :
    (∀ (q : Queue) (u : String) (r : Int) (g : String) (n : Int) (ok : Bool)
        (gm : Game) (q' : Queue),
      startMatchmaking q u (some r) g n ok = (.matched gm, q') →
      gm.player2Id = u ∧ gm.currentTurn = gm.player1Id ∧
      ∃ d, findBestMatch (if mapHas q u then mapDelete q u else q) r g u =
        some (gm.player1Id, d)) ∧
    (∀ (q : Queue) (u : String) (r : Int) (g : String) (rg : Option Game)
        (ok : Bool) (gm : Game) (q' : Queue),
      mapHas q u = true →
      checkMatchmakingStatus q u (some r) g rg ok = (.matched gm, q') →
      gm.player1Id = u ∧ gm.currentTurn = u ∧
      ∃ d, findBestMatch q r g u = some (gm.player2Id, d)) := by
  constructor
  · intro q u r g n ok gm q' hstart
    simp only [startMatchmaking] at hstart
    cases hfb : findBestMatch (if mapHas q u then mapDelete q u else q)
        r g u with
    | none => simp [hfb] at hstart
    | some best =>
      obtain ⟨bu, bd⟩ := best
      simp only [hfb] at hstart
      split at hstart
      · injection hstart with h1 h2
        injection h1 with h1
        rw [← h1]
        exact ⟨rfl, rfl, bd, rfl⟩
      · simp at hstart
  · intro q u r g rg ok gm q' hh hst
    simp only [checkMatchmakingStatus, hh, eq_self_iff_true, if_true] at hst
    cases hfb : findBestMatch q r g u with
    | none => simp [hfb] at hst
    | some best =>
      obtain ⟨bu, bd⟩ := best
      simp only [hfb] at hst
      split at hst
      · injection hst with h1 h2
        injection h1 with h1
        rw [← h1]
        exact ⟨rfl, rfl, bd, rfl⟩
      · simp at hst

/-- Witness for C8: the enqueue-time match seats the waiting player "A"
first; the poll-time match seats the polling player "B" first. -/
theorem c8_first_turn_assignment_witness :
    (("B" : String) = "B" ∧ ("A" : String) = "A" ∧
      ∃ d, findBestMatch [("A", (⟨1000, 0, "g"⟩ : QueueEntryData))] 1050 "g"
        "B" = some ("A", d)) ∧
    (("B" : String) = "B" ∧ ("B" : String) = "B" ∧
      ∃ d, findBestMatch [("B", ⟨1050, 0, "g"⟩), ("A", ⟨1000, 0, "g"⟩)] 1050
        "g" "B" = some ("A", d)) :=
  ⟨c8_first_turn_assignment.1 [("A", ⟨1000, 0, "g"⟩)] "B" 1050 "g" 1 true
      ⟨"g", "A", "B", "IN_PROGRESS", "A"⟩ [] (by decide),
   c8_first_turn_assignment.2 [("B", ⟨1050, 0, "g"⟩), ("A", ⟨1000, 0, "g"⟩)]
      "B" 1050 "g" none true ⟨"g", "B", "A", "IN_PROGRESS", "B"⟩ []
      (by decide) (by decide)⟩

/-- C9: when the game-creation collaborator fails after a candidate was
selected, `startMatchmaking` answers a generic operational failure (the
500 catch path, no game in the result) and the queue is not rolled back:
the candidate stays removed and the requester was never inserted, so
neither player is in the queue afterwards. -/
theorem c9_create_failure_no_rollback
    (q : Queue) (u : String) (r : Int) (g : String) (n : Int)
    (best : String × QueueEntryData)
    (hfb : findBestMatch (if mapHas q u then mapDelete q u else q) r g u =
      some best) :
    startMatchmaking q u (some r) g n false =
      (.error, mapDelete (if mapHas q u then mapDelete q u else q) best.1) ∧
    mapHas (mapDelete (if mapHas q u then mapDelete q u else q) best.1)
      best.1 = false ∧
    mapHas (mapDelete (if mapHas q u then mapDelete q u else q) best.1)
      u = false := by
  refine ⟨?_, mapHas_mapDelete_self _ _, ?_⟩
  · simp [startMatchmaking, hfb]
  · apply mapHas_mapDelete_false
    split
    · exact mapHas_mapDelete_self q u
    · rename_i hno
      simpa using hno

/-- Witness for C9: with "A" waiting and "B" joining while creation fails,
the error result leaves an empty queue. -/
theorem c9_create_failure_no_rollback_witness :
    startMatchmaking [("A", ⟨1000, 0, "g"⟩)] "B" (some 1050) "g" 2 false =
      (.error, ([] : Queue)) ∧
    mapHas ([] : Queue) "A" = false ∧ mapHas ([] : Queue) "B" = false :=
  c9_create_failure_no_rollback [("A", ⟨1000, 0, "g"⟩)] "B" 1050 "g" 2
    ("A", ⟨1000, 0, "g"⟩) (by decide)

/-- C10: the re-match run by `checkMatchmakingStatus` uses the rating
freshly resolved by the player lookup at poll time, not the snapshot
stored in the poller's own queue entry: here the entry stores rating 1000
but the lookup returns 2000, so the poll matches "y" (rating 2000), while
a search with the stored snapshot 1000 selects "x" (rating 1010). -/
theorem c10_fresh_rating_used :
    checkMatchmakingStatus
        [("req", ⟨1000, 0, "chess"⟩), ("x", ⟨1010, 0, "chess"⟩),
          ("y", ⟨2000, 0, "chess"⟩)] "req" (some 2000) "chess" none true =
      (.matched ⟨"chess", "req", "y", "IN_PROGRESS", "req"⟩,
        [("x", ⟨1010, 0, "chess"⟩)]) ∧
    findBestMatch
        [("req", ⟨1000, 0, "chess"⟩), ("x", ⟨1010, 0, "chess"⟩),
          ("y", ⟨2000, 0, "chess"⟩)] 1000 "chess" "req" =
      some ("x", ⟨1010, 0, "chess"⟩) ∧
    ("y" : String) ≠ "x" := by decide

end Matchmaking
